import Mathlib

/-!
Verification of the satellite image-pair selection and raster processing pipelines.

The development embeds, in exact rational arithmetic:
* the best-overlap pair selection loop of `src/ingestion/Data_Ingestion.py`;
* the masking, Lee filter and texture steps of
  `src/preprocessing/Sentinel-1_Processing.py`;
* the NDVI and cloud masking steps of `src/preprocessing/Sentinel-2_Processing.py`.

Raster windows are modelled as total functions `Nat → Nat → _` together with
explicit dimensions; a missing (NaN) pixel is `Option.none`.
-/

namespace SatPipeline

/-- Abstract interface to the footprint geometry used by the ingestion script:
`interArea a b` is the area of the intersection of the two footprints,
`interEmpty a b` is the emptiness test of that intersection, and `areaB b` is
the area of the optical footprint (the denominator of the overlap score). -/
structure OverlapGeo (α β : Type) where
  interArea : α → β → ℚ
  interEmpty : α → β → Bool
  areaB : β → ℚ

variable {α β : Type}

/-- Overlap score of a (radar, optical) combination:
`(intersection.area / geom_s2.area) * 100`. -/
def overlapScore (G : OverlapGeo α β) (a : α) (b : β) : ℚ :=
  G.interArea a b / G.areaB b * 100

/-- One iteration of the selection loop body: skip empty intersections, and
update the running best on a strictly larger overlap. -/
def selStep (G : OverlapGeo α β) (acc : Option (α × β) × ℚ) (p : α × β) :
    Option (α × β) × ℚ :=
  if G.interEmpty p.1 p.2 then acc
  else if acc.2 < overlapScore G p.1 p.2 then (some p, overlapScore G p.1 p.2) else acc

/-- The nested loop over radar candidates (outer) and optical candidates
(inner), starting from `best_pair = None`, `best_overlap = 0`. -/
def bestPairFold (G : OverlapGeo α β) (s1 : List α) (s2 : List β) :
    Option (α × β) × ℚ :=
  s1.foldl (fun acc a => s2.foldl (fun acc2 b => selStep G acc2 (a, b)) acc) (none, 0)

/-- The selection routine: raises when the loop found no pair, and otherwise
returns the selected pair. -/
def selectBestPair (G : OverlapGeo α β) (s1 : List α) (s2 : List β) :
    Except String (α × β) :=
  match (bestPairFold G s1 s2).1 with
  | none => Except.error "No overlapping S1-S2 pair found"
  | some p => Except.ok p

/-- All (radar, optical) combinations in the iteration order of the nested
loops. -/
def combos : List α → List β → List (α × β)
  | [], _ => []
  | a :: as, bs => bs.map (fun b => (a, b)) ++ combos as bs

theorem mem_combos {p : α × β} {s1 : List α} {s2 : List β} :
    p ∈ combos s1 s2 ↔ p.1 ∈ s1 ∧ p.2 ∈ s2 := by
  induction s1 with
  | nil => simp [combos]
  | cons a as ih =>
    obtain ⟨x, y⟩ := p
    simp only [combos, List.mem_append, List.mem_map, ih, List.mem_cons, Prod.mk.injEq]
    constructor
    · rintro (⟨b, hb, rfl, rfl⟩ | ⟨hx, hy⟩)
      · exact ⟨Or.inl rfl, hb⟩
      · exact ⟨Or.inr hx, hy⟩
    · rintro ⟨rfl | hx, hy⟩
      · exact Or.inl ⟨y, hy, rfl, rfl⟩
      · exact Or.inr ⟨hx, hy⟩

theorem combos_foldl (G : OverlapGeo α β) (s1 : List α) (s2 : List β)
    (init : Option (α × β) × ℚ) :
    s1.foldl (fun acc a => s2.foldl (fun acc2 b => selStep G acc2 (a, b)) acc) init
      = (combos s1 s2).foldl (selStep G) init := by
  induction s1 generalizing init with
  | nil => rfl
  | cons a as ih =>
    rw [List.foldl_cons, combos, List.foldl_append, List.foldl_map]
    exact ih _

theorem bestPairFold_eq_combos (G : OverlapGeo α β) (s1 : List α) (s2 : List β) :
    bestPairFold G s1 s2 = (combos s1 s2).foldl (selStep G) (none, 0) :=
  combos_foldl G s1 s2 (none, 0)

/-- Structure of a run of the selection fold over a list of combinations:
either no update ever fires (the accumulator is returned and every eligible
combination scores at most the initial best), or the result is the last
updating combination `p`, every eligible combination strictly before `p`
scores strictly below `p`, and every one after scores at most `p`. -/
theorem selFold_spec (G : OverlapGeo α β) (l : List (α × β))
    (init : Option (α × β) × ℚ) :
    (l.foldl (selStep G) init = init ∧
      ∀ q ∈ l, G.interEmpty q.1 q.2 = false → overlapScore G q.1 q.2 ≤ init.2)
    ∨ (∃ l1 p l2, l = l1 ++ p :: l2 ∧ G.interEmpty p.1 p.2 = false ∧
        l.foldl (selStep G) init = (some p, overlapScore G p.1 p.2) ∧
        init.2 < overlapScore G p.1 p.2 ∧
        (∀ q ∈ l1, G.interEmpty q.1 q.2 = false →
          overlapScore G q.1 q.2 < overlapScore G p.1 p.2) ∧
        (∀ q ∈ l2, G.interEmpty q.1 q.2 = false →
          overlapScore G q.1 q.2 ≤ overlapScore G p.1 p.2)) := by
  induction l generalizing init with
  | nil => exact Or.inl ⟨rfl, by simp⟩
  | cons x xs ih =>
    by_cases hx : G.interEmpty x.1 x.2 = true
    · have hstep : selStep G init x = init := by simp [selStep, hx]
      rcases ih init with ⟨h1, h2⟩ | ⟨l1, p, l2, heq, hpe, hfold, hlt, hall1, hall2⟩
      · refine Or.inl ⟨by rw [List.foldl_cons, hstep, h1], ?_⟩
        intro q hq hqe
        rcases List.mem_cons.mp hq with rfl | hq2
        · rw [hx] at hqe; exact absurd hqe (by simp)
        · exact h2 q hq2 hqe
      · refine Or.inr ⟨x :: l1, p, l2, by rw [heq]; rfl, hpe,
          by rw [List.foldl_cons, hstep, hfold], hlt, ?_, hall2⟩
        intro q hq hqe
        rcases List.mem_cons.mp hq with rfl | hq2
        · rw [hx] at hqe; exact absurd hqe (by simp)
        · exact hall1 q hq2 hqe
    · have hxf : G.interEmpty x.1 x.2 = false := by
        cases h : G.interEmpty x.1 x.2 with
        | false => rfl
        | true => exact absurd h hx
      by_cases hgt : init.2 < overlapScore G x.1 x.2
      · have hstep : selStep G init x = (some x, overlapScore G x.1 x.2) := by
          simp [selStep, hxf, hgt]
        rcases ih (some x, overlapScore G x.1 x.2) with ⟨h1, h2⟩ |
            ⟨l1, p, l2, heq, hpe, hfold, hlt, hall1, hall2⟩
        · refine Or.inr ⟨[], x, xs, rfl, hxf,
            by rw [List.foldl_cons, hstep, h1], hgt, by simp, ?_⟩
          intro q hq hqe
          exact h2 q hq hqe
        · refine Or.inr ⟨x :: l1, p, l2, by rw [heq]; rfl, hpe,
            by rw [List.foldl_cons, hstep, hfold], lt_trans hgt hlt, ?_, hall2⟩
          intro q hq hqe
          rcases List.mem_cons.mp hq with rfl | hq2
          · exact hlt
          · exact hall1 q hq2 hqe
      · have hstep : selStep G init x = init := by
          simp [selStep, hxf, hgt]
        rcases ih init with ⟨h1, h2⟩ | ⟨l1, p, l2, heq, hpe, hfold, hlt, hall1, hall2⟩
        · refine Or.inl ⟨by rw [List.foldl_cons, hstep, h1], ?_⟩
          intro q hq hqe
          rcases List.mem_cons.mp hq with rfl | hq2
          · exact le_of_not_lt hgt
          · exact h2 q hq2 hqe
        · refine Or.inr ⟨x :: l1, p, l2, by rw [heq]; rfl, hpe,
            by rw [List.foldl_cons, hstep, hfold], hlt, ?_, hall2⟩
          intro q hq hqe
          rcases List.mem_cons.mp hq with rfl | hq2
          · exact lt_of_le_of_lt (le_of_not_lt hgt) hlt
          · exact hall1 q hq2 hqe

/-- A positive intersection area forces a positive overlap score. -/
theorem overlapScore_pos (G : OverlapGeo α β) {a : α} {b : β}
    (harea : 0 < G.areaB b) (hpos : 0 < G.interArea a b) :
    0 < overlapScore G a b := by
  have h1 : 0 < G.interArea a b / G.areaB b := div_pos hpos harea
  have : (0 : ℚ) < 100 := by norm_num
  exact mul_pos h1 this

/-- A positive overlap score forces a positive intersection area. -/
theorem interArea_pos_of_score_pos (G : OverlapGeo α β) {a : α} {b : β}
    (harea : 0 < G.areaB b) (hscore : 0 < overlapScore G a b) :
    0 < G.interArea a b := by
  have h1 : 0 < G.interArea a b / G.areaB b := by
    by_contra h
    push_neg at h
    have : overlapScore G a b ≤ 0 := by
      unfold overlapScore
      nlinarith
    linarith
  rcases div_pos_iff.mp h1 with ⟨h2, _⟩ | ⟨_, h3⟩
  · exact h2
  · linarith

/-- Core characterization when some combination has positive intersection
area: the loop selects a pair that is maximal in overlap score over all
combinations, first-encountered on ties, and itself has positive
intersection area. -/
theorem selectBestPair_of_exists_pos (G : OverlapGeo α β) (s1 : List α) (s2 : List β)
    (hpos : ∀ a b, 0 < G.interArea a b → G.interEmpty a b = false)
    (hempty : ∀ a b, G.interEmpty a b = true → G.interArea a b = 0)
    (harea : ∀ b, 0 < G.areaB b)
    (hex : ∃ a ∈ s1, ∃ b ∈ s2, 0 < G.interArea a b) :
    ∃ p, selectBestPair G s1 s2 = Except.ok p ∧ 0 < G.interArea p.1 p.2 ∧
      (∀ a ∈ s1, ∀ b ∈ s2, overlapScore G a b ≤ overlapScore G p.1 p.2) ∧
      ∃ l1 l2, combos s1 s2 = l1 ++ p :: l2 ∧
        ∀ q ∈ l1, overlapScore G q.1 q.2 < overlapScore G p.1 p.2 := by
  obtain ⟨a0, ha0, b0, hb0, hab0⟩ := hex
  have hmem0 : (a0, b0) ∈ combos s1 s2 := mem_combos.mpr ⟨ha0, hb0⟩
  have helig0 : G.interEmpty a0 b0 = false := hpos a0 b0 hab0
  have hscore0 : 0 < overlapScore G a0 b0 := overlapScore_pos G (harea b0) hab0
  rcases selFold_spec G (combos s1 s2) (none, 0) with ⟨_, h2⟩ |
      ⟨l1, p, l2, heq, hpe, hfold, hlt, hall1, hall2⟩
  · exact absurd (h2 (a0, b0) hmem0 helig0) (not_le.mpr hscore0)
  · have hfold2 : bestPairFold G s1 s2 = (some p, overlapScore G p.1 p.2) := by
      rw [bestPairFold_eq_combos, hfold]
    have hok : selectBestPair G s1 s2 = Except.ok p := by
      unfold selectBestPair
      rw [hfold2]
    have hppos : (0 : ℚ) < overlapScore G p.1 p.2 := hlt
    have hscore_empty : ∀ q : α × β, G.interEmpty q.1 q.2 = true →
        overlapScore G q.1 q.2 = 0 := by
      intro q hq
      unfold overlapScore
      rw [hempty q.1 q.2 hq, zero_div, zero_mul]
    refine ⟨p, hok, interArea_pos_of_score_pos G (harea p.2) hppos, ?_, l1, l2, heq, ?_⟩
    · intro a ha b hb
      have hmem : (a, b) ∈ combos s1 s2 := mem_combos.mpr ⟨ha, hb⟩
      cases hab : G.interEmpty a b with
      | true =>
        have : overlapScore G a b = 0 := hscore_empty (a, b) hab
        rw [this]; exact le_of_lt hppos
      | false =>
        rw [heq] at hmem
        rcases List.mem_append.mp hmem with hm1 | hm2
        · exact le_of_lt (hall1 (a, b) hm1 hab)
        · rcases List.mem_cons.mp hm2 with hpq | hm3
          · cases hpq; exact le_refl _
          · exact hall2 (a, b) hm3 hab
    · intro q hq
      cases hqe : G.interEmpty q.1 q.2 with
      | true =>
        rw [hscore_empty q hqe]; exact hppos
      | false => exact hall1 q hq hqe

/-- Core characterization when no combination has positive intersection
area: the loop never selects and the routine fails. -/
theorem selectBestPair_eq_error_of_forall_nonpos (G : OverlapGeo α β)
    (s1 : List α) (s2 : List β)
    (harea : ∀ b, 0 < G.areaB b)
    (hall : ∀ a ∈ s1, ∀ b ∈ s2, G.interArea a b ≤ 0) :
    selectBestPair G s1 s2 = Except.error "No overlapping S1-S2 pair found" := by
  rcases selFold_spec G (combos s1 s2) (none, 0) with ⟨h1, _⟩ |
      ⟨l1, p, l2, heq, _, hfold, hlt, _, _⟩
  · unfold selectBestPair
    rw [bestPairFold_eq_combos, h1]
  · exfalso
    have hpmem : p ∈ combos s1 s2 := by
      rw [heq]
      exact List.mem_append_right l1 (List.mem_cons_self p l2)
    obtain ⟨hp1, hp2⟩ := mem_combos.mp hpmem
    have hppos : (0 : ℚ) < overlapScore G p.1 p.2 := hlt
    have := interArea_pos_of_score_pos G (harea p.2) hppos
    exact absurd (hall p.1 hp1 p.2 hp2) (not_le.mpr this)

/-- A selected pair always has positive intersection area. -/
theorem interArea_pos_of_ok (G : OverlapGeo α β) (s1 : List α) (s2 : List β)
    (harea : ∀ b, 0 < G.areaB b) (p : α × β)
    (hok : selectBestPair G s1 s2 = Except.ok p) : 0 < G.interArea p.1 p.2 := by
  rcases selFold_spec G (combos s1 s2) (none, 0) with ⟨h1, _⟩ |
      ⟨l1, q, l2, _, _, hfold, hlt, _, _⟩
  · exfalso
    unfold selectBestPair at hok
    rw [bestPairFold_eq_combos, h1] at hok
    exact Except.noConfusion hok
  · unfold selectBestPair at hok
    rw [bestPairFold_eq_combos, hfold] at hok
    have hq : q = p := Except.ok.inj hok
    subst hq
    exact interArea_pos_of_score_pos G (harea q.2) hlt

/-- Concrete one-candidate geometry in which the single combination overlaps. -/
def demoGeo : OverlapGeo (Fin 1) (Fin 1) where
  interArea := fun _ _ => 1
  interEmpty := fun _ _ => false
  areaB := fun _ => 2

/-- Concrete one-candidate geometry in which the single combination is disjoint. -/
def demoGeoDisjoint : OverlapGeo (Fin 1) (Fin 1) where
  interArea := fun _ _ => 0
  interEmpty := fun _ _ => true
  areaB := fun _ => 2

/-- C1: when some (radar, optical) combination has positive intersection area,
`selectBestPair` returns a pair whose overlap score is greater than or equal to
the overlap score of every other combination, and on exact score ties the pair
encountered first in the iteration order (outer loop over radar candidates,
inner loop over optical candidates) is retained: every combination strictly
before the returned pair scores strictly below it. -/
theorem selectBestPair_isMax (G : OverlapGeo α β) (s1 : List α) (s2 : List β)
    (hpos : ∀ a b, 0 < G.interArea a b → G.interEmpty a b = false)
    (hempty : ∀ a b, G.interEmpty a b = true → G.interArea a b = 0)
    (harea : ∀ b, 0 < G.areaB b)
    (hex : ∃ a ∈ s1, ∃ b ∈ s2, 0 < G.interArea a b) :
    ∃ p, selectBestPair G s1 s2 = Except.ok p ∧
      (∀ a ∈ s1, ∀ b ∈ s2, overlapScore G a b ≤ overlapScore G p.1 p.2) ∧
      ∃ l1 l2, combos s1 s2 = l1 ++ p :: l2 ∧
        ∀ q ∈ l1, overlapScore G q.1 q.2 < overlapScore G p.1 p.2 := by
  obtain ⟨p, hok, _, hmax, hfirst⟩ :=
    selectBestPair_of_exists_pos G s1 s2 hpos hempty harea hex
  exact ⟨p, hok, hmax, hfirst⟩

theorem selectBestPair_isMax_witness :
    ∃ p, selectBestPair demoGeo [(0 : Fin 1)] [(0 : Fin 1)] = Except.ok p ∧
      (∀ a ∈ [(0 : Fin 1)], ∀ b ∈ [(0 : Fin 1)],
        overlapScore demoGeo a b ≤ overlapScore demoGeo p.1 p.2) ∧
      ∃ l1 l2, combos [(0 : Fin 1)] [(0 : Fin 1)] = l1 ++ p :: l2 ∧
        ∀ q ∈ l1, overlapScore demoGeo q.1 q.2 < overlapScore demoGeo p.1 p.2 :=
  selectBestPair_isMax demoGeo _ _ (by decide) (by decide) (by decide)
    ⟨0, by decide, 0, by decide, by decide⟩

/-- C2: `selectBestPair` fails with the no-overlap error exactly when no
combination yields a positive intersection area, or when either input list is
empty; a geometrically disjoint combination is never selected, so a selected
pair always has positive intersection area (and a non-empty intersection). -/
theorem selectBestPair_error_iff (G : OverlapGeo α β) (s1 : List α) (s2 : List β)
    (hpos : ∀ a b, 0 < G.interArea a b → G.interEmpty a b = false)
    (hempty : ∀ a b, G.interEmpty a b = true → G.interArea a b = 0)
    (harea : ∀ b, 0 < G.areaB b) :
    (selectBestPair G s1 s2 = Except.error "No overlapping S1-S2 pair found" ↔
      (s1 = [] ∨ s2 = [] ∨ ∀ a ∈ s1, ∀ b ∈ s2, G.interArea a b ≤ 0)) ∧
    ∀ p, selectBestPair G s1 s2 = Except.ok p →
      0 < G.interArea p.1 p.2 ∧ G.interEmpty p.1 p.2 = false := by
  constructor
  · constructor
    · intro herr
      refine Or.inr (Or.inr ?_)
      by_contra hcon
      push_neg at hcon
      obtain ⟨a, ha, b, hb, hgt⟩ := hcon
      obtain ⟨p, hok, _⟩ :=
        selectBestPair_of_exists_pos G s1 s2 hpos hempty harea ⟨a, ha, b, hb, hgt⟩
      rw [herr] at hok
      exact Except.noConfusion hok
    · intro hcase
      have hall : ∀ a ∈ s1, ∀ b ∈ s2, G.interArea a b ≤ 0 := by
        rcases hcase with h | h | h
        · subst h; intro a ha; exact absurd ha (List.not_mem_nil a)
        · subst h; intro a _ b hb; exact absurd hb (List.not_mem_nil b)
        · exact h
      exact selectBestPair_eq_error_of_forall_nonpos G s1 s2 harea hall
  · intro p hok
    have h1 := interArea_pos_of_ok G s1 s2 harea p hok
    exact ⟨h1, hpos p.1 p.2 h1⟩

theorem selectBestPair_error_iff_witness :
    selectBestPair demoGeoDisjoint [(0 : Fin 1)] [(0 : Fin 1)]
      = Except.error "No overlapping S1-S2 pair found" :=
  (selectBestPair_error_iff demoGeoDisjoint [(0 : Fin 1)] [(0 : Fin 1)]
      (by decide) (by decide) (by decide)).1.mpr
    (Or.inr (Or.inr (by decide)))

/-- Range masking of a decibel value: values below -40 are replaced by NaN,
then values above 5 are replaced by NaN; comparisons against NaN are false, so
a NaN input stays NaN. -/
def maskDb (v : Option ℚ) : Option ℚ :=
  match v with
  | none => none
  | some x => if x < -40 then none else if 5 < x then none else some x

/-- Range masking applied pointwise to a decibel raster window. -/
def maskGrid (db : Nat → Nat → Option ℚ) : Nat → Nat → Option ℚ :=
  fun i j => maskDb (db i j)

/-- The substitution `np.nan_to_num(sigma0_db_window, nan=-40)`: NaN pixels
become the floor value -40. -/
def nanToNumNeg40 (db : Nat → Nat → Option ℚ) : Nat → Nat → ℚ :=
  fun i j => (db i j).getD (-40)

/-- Boundary index handling of the sliding window, the reflect mode of
`scipy.ndimage.uniform_filter`: the sequence is extended by reflection about
the edge (..., g 1, g 0, g 0, g 1, ...), with period 2n. -/
def reflectIdx (n : Nat) (p : ℤ) : Nat :=
  let q := (p % (2 * (n : ℤ))).toNat
  if q < n then q else 2 * n - 1 - q

/-- The 5x5 uniform (box) filter `uniform_filter(temp, size=5)`: the mean of
the 25 samples in the window centred at the pixel, boundary by reflection. -/
def uniformFilter5 (m n : Nat) (g : Nat → Nat → ℚ) : Nat → Nat → ℚ :=
  fun i j =>
    (∑ a ∈ Finset.range 5, ∑ b ∈ Finset.range 5,
        g (reflectIdx m ((i : ℤ) + (a : ℤ) - 2)) (reflectIdx n ((j : ℤ) + (b : ℤ) - 2))) / 25

/-- Sum of all pixels of an m-by-n raster window. -/
def gridSum (m n : Nat) (g : Nat → Nat → ℚ) : ℚ :=
  ∑ i ∈ Finset.range m, ∑ j ∈ Finset.range n, g i j

/-- Mean of an m-by-n raster window. -/
def gridMean (m n : Nat) (g : Nat → Nat → ℚ) : ℚ :=
  gridSum m n g / (m * n)

/-- `np.var`: the mean of the squared deviations from the mean. -/
def gridVar (m n : Nat) (g : Nat → Nat → ℚ) : ℚ :=
  gridSum m n (fun i j => (g i j - gridMean m n g) ^ 2) / (m * n)

/-- Local mean of the floor-substituted raster, `uniform_filter(temp, size=5)`. -/
def leeMean (m n : Nat) (db : Nat → Nat → Option ℚ) : Nat → Nat → ℚ :=
  uniformFilter5 m n (nanToNumNeg40 db)

/-- Local mean of squares, `uniform_filter(temp**2, size=5)`. -/
def leeMeanSq (m n : Nat) (db : Nat → Nat → Option ℚ) : Nat → Nat → ℚ :=
  uniformFilter5 m n fun i j => nanToNumNeg40 db i j ^ 2

/-- Local variance, `mean_sq - mean**2`. -/
def leeVariance (m n : Nat) (db : Nat → Nat → Option ℚ) (i j : Nat) : ℚ :=
  leeMeanSq m n db i j - leeMean m n db i j ^ 2

/-- The Lee filter of the radar pipeline:
`lee = mean + (variance / (variance + overall_variance)) * (temp - mean)`,
followed by `lee_filtered[np.isnan(sigma0_db_window)] = np.nan`, which
re-imposes NaN at the positions that were NaN in the masked input. -/
def leeFiltered (m n : Nat) (db : Nat → Nat → Option ℚ) : Nat → Nat → Option ℚ :=
  fun i j =>
    match db i j with
    | none => none
    | some _ =>
        some (leeMean m n db i j
          + leeVariance m n db i j
              / (leeVariance m n db i j + gridVar m n (nanToNumNeg40 db))
            * (nanToNumNeg40 db i j - leeMean m n db i j))

theorem uniformFilter5_const (m n : Nat) (c : ℚ) (i j : Nat) :
    uniformFilter5 m n (fun _ _ => c) i j = c := by
  unfold uniformFilter5
  rw [Finset.sum_congr rfl fun a _ => Finset.sum_const c]
  rw [Finset.sum_const]
  simp only [Finset.card_range, nsmul_eq_mul]
  ring

/-- C3: after range masking, every pixel of the masked decibel raster is
either NaN or lies in the closed interval [-40, 5], whatever the decibel
raster before masking was. -/
theorem maskGrid_range_invariant (db : Nat → Nat → Option ℚ) (i j : Nat) :
    maskGrid db i j = none ∨
      ∃ x, maskGrid db i j = some x ∧ -40 ≤ x ∧ x ≤ 5 := by
  cases h : db i j with
  | none => exact Or.inl (by simp [maskGrid, maskDb, h])
  | some v =>
    by_cases h1 : v < -40
    · exact Or.inl (by simp [maskGrid, maskDb, h, h1])
    · by_cases h2 : 5 < v
      · exact Or.inl (by simp [maskGrid, maskDb, h, h1, h2])
      · exact Or.inr ⟨v, by simp [maskGrid, maskDb, h, h1, h2],
          le_of_not_lt h1, le_of_not_lt h2⟩

/-- C4: the Lee filter applied to a perfectly uniform window (every pixel the
same constant, no NaN positions) returns the same constant raster: the local
variance is zero, so the weighting ratio is 0/(0 + overallVariance), which is
0 also in the degenerate 0/0 case, and the output collapses to the local
mean, which equals the constant. -/
theorem leeFiltered_const_passthrough (m n : Nat) (c : ℚ) (i j : Nat) :
    leeFiltered m n (fun _ _ => some c) i j = some c := by
  have htemp : nanToNumNeg40 (fun _ _ => some c) = fun _ _ => c := rfl
  have hmean : leeMean m n (fun _ _ => some c) i j = c := by
    unfold leeMean
    rw [htemp, uniformFilter5_const]
  have hsq : leeMeanSq m n (fun _ _ => some c) i j = c ^ 2 := by
    unfold leeMeanSq
    have : (fun a b => nanToNumNeg40 (fun _ _ => some c) a b ^ 2)
        = fun _ _ : Nat => c ^ 2 := rfl
    rw [this, uniformFilter5_const]
  have hvar : leeVariance m n (fun _ _ => some c) i j = 0 := by
    unfold leeVariance
    rw [hmean, hsq, sub_self]
  have hred : leeFiltered m n (fun _ _ => some c) i j
      = some (leeMean m n (fun _ _ => some c) i j
          + leeVariance m n (fun _ _ => some c) i j
              / (leeVariance m n (fun _ _ => some c) i j
                + gridVar m n (nanToNumNeg40 fun _ _ => some c))
            * (nanToNumNeg40 (fun _ _ => some c) i j
              - leeMean m n (fun _ _ => some c) i j)) := rfl
  rw [hred, hmean, hvar, htemp]
  simp

/-- C5: the Lee-filtered raster is NaN at exactly the positions that were NaN
in the masked decibel input, and at such a position the temporarily
substituted floor value -40 never appears in the output. -/
theorem leeFiltered_nodata_exact (m n : Nat) (db : Nat → Nat → Option ℚ)
    (i j : Nat) :
    (leeFiltered m n db i j = none ↔ db i j = none) ∧
    (db i j = none → leeFiltered m n db i j ≠ some (-40)) := by
  cases h : db i j with
  | none => simp [leeFiltered, h]
  | some v => simp [leeFiltered, h]

theorem leeFiltered_nodata_exact_witness :
    leeFiltered 1 1 (fun _ _ => (none : Option ℚ)) 0 0 ≠ some (-40) :=
  (leeFiltered_nodata_exact 1 1 (fun _ _ => none) 0 0).2 rfl

/-- C10: two raw decibel windows that agree at every position that is in the
range [-40, 5] in both, and whose sets of out-of-range positions coincide,
produce identical Lee-filtered rasters: the magnitudes of the out-of-range
values cannot influence the filtered output, only the positions they occupy. -/
theorem lee_filter_mask_abstraction (m n : Nat) (d1 d2 : Nat → Nat → ℚ)
    (hset : ∀ i j, (d1 i j < -40 ∨ 5 < d1 i j) ↔ (d2 i j < -40 ∨ 5 < d2 i j))
    (hagree : ∀ i j, ¬(d1 i j < -40 ∨ 5 < d1 i j) →
      ¬(d2 i j < -40 ∨ 5 < d2 i j) → d1 i j = d2 i j) (i j : Nat) :
    leeFiltered m n (maskGrid fun a b => some (d1 a b)) i j
      = leeFiltered m n (maskGrid fun a b => some (d2 a b)) i j := by
  have hmask : (maskGrid fun a b => some (d1 a b))
      = (maskGrid fun a b => some (d2 a b)) := by
    funext a b
    simp only [maskGrid, maskDb]
    by_cases h1 : d1 a b < -40
    · have h2 : d2 a b < -40 ∨ 5 < d2 a b := (hset a b).mp (Or.inl h1)
      rw [if_pos h1]
      rcases h2 with h2 | h2
      · rw [if_pos h2]
      · by_cases h3 : d2 a b < -40
        · rw [if_pos h3]
        · rw [if_neg h3, if_pos h2]
    · by_cases h2 : 5 < d1 a b
      · have h3 : d2 a b < -40 ∨ 5 < d2 a b := (hset a b).mp (Or.inr h2)
        rw [if_neg h1, if_pos h2]
        rcases h3 with h3 | h3
        · rw [if_pos h3]
        · by_cases h4 : d2 a b < -40
          · rw [if_pos h4]
          · rw [if_neg h4, if_pos h3]
      · have hn1 : ¬(d1 a b < -40 ∨ 5 < d1 a b) := by
          rintro (h | h)
          · exact h1 h
          · exact h2 h
        have hn2 : ¬(d2 a b < -40 ∨ 5 < d2 a b) := fun hcon => hn1 ((hset a b).mpr hcon)
        have h3 : ¬ d2 a b < -40 := fun h => hn2 (Or.inl h)
        have h4 : ¬ 5 < d2 a b := fun h => hn2 (Or.inr h)
        rw [if_neg h1, if_neg h2, if_neg h3, if_neg h4, hagree a b hn1 hn2]
  rw [hmask]

theorem lee_filter_mask_abstraction_witness :
    leeFiltered 1 1 (maskGrid fun _ _ => some (-100 : ℚ)) 0 0
      = leeFiltered 1 1 (maskGrid fun _ _ => some (-50 : ℚ)) 0 0 :=
  lee_filter_mask_abstraction 1 1 (fun _ _ => -100) (fun _ _ => -50)
    (fun _ _ => by norm_num)
    (fun _ _ h1 _ => absurd (Or.inl (by norm_num)) h1) 0 0

/-- Valid (non-NaN) values of one raster row, in column order. -/
def rowVals (n : Nat) (g : Nat → Option ℚ) : List ℚ :=
  (List.range n).filterMap g

/-- Valid (non-NaN) values of an m-by-n raster window, in row-major order. -/
def patchVals (m n : Nat) (g : Nat → Nat → Option ℚ) : List ℚ :=
  (List.range m).foldr (fun i acc => rowVals n (g i) ++ acc) []

/-- Minimum of a list of rationals, 0 on the empty list. -/
def listMinD : List ℚ → ℚ
  | [] => 0
  | x :: xs => xs.foldl min x

/-- Maximum of a list of rationals, 0 on the empty list. -/
def listMaxD : List ℚ → ℚ
  | [] => 0
  | x :: xs => xs.foldl max x

/-- The NaN-ignoring minimum `np.nanmin(patch)` of a raster window. -/
def nanminP (m n : Nat) (g : Nat → Nat → Option ℚ) : ℚ :=
  listMinD (patchVals m n g)

/-- The NaN-ignoring maximum `np.nanmax(patch)` of a raster window. -/
def nanmaxP (m n : Nat) (g : Nat → Nat → Option ℚ) : ℚ :=
  listMaxD (patchVals m n g)

/-- The normalization of the texture patch,
`(patch - np.nanmin(patch)) / (np.nanmax(patch) - np.nanmin(patch))`; NaN
pixels stay NaN through the elementwise arithmetic. -/
def normPatch (m n : Nat) (g : Nat → Nat → Option ℚ) : Nat → Nat → Option ℚ :=
  fun i j =>
    (g i j).map fun x => (x - nanminP m n g) / (nanmaxP m n g - nanminP m n g)

/-- Rounding to the nearest integer, ties to even, as `np.rint` does. -/
def rint (x : ℚ) : ℤ :=
  if x - Int.floor x < 1 / 2 then Int.floor x
  else if 1 / 2 < x - Int.floor x then Int.floor x + 1
  else if Int.floor x % 2 = 0 then Int.floor x else Int.floor x + 1

/-- The quantization of `img_as_ubyte` on floats in [0, 1]: scale by 255 and
round to the nearest integer level (negative inputs clip to 0). -/
def imgAsUbyte (x : ℚ) : ℕ :=
  (rint (x * 255)).toNat

/-- The quantized 8-bit texture patch,
`img_as_ubyte(np.nan_to_num(norm_patch))`: NaN is substituted with 0 after
the normalization, then each pixel is quantized. -/
def patchUint8 (m n : Nat) (g : Nat → Nat → Option ℚ) : Nat → Nat → ℕ :=
  fun i j => imgAsUbyte ((normPatch m n g i j).getD 0)

/-- Follows claim C6: a texture step that fails with DegenerateWindow when
the sub-window has zero dynamic range, and otherwise returns the quantized
patch computed by the code. -/
def textureStepClaimC6 (m n : Nat) (g : Nat → Nat → Option ℚ) :
    Except String (Nat → Nat → ℕ) :=
  if nanmaxP m n g = nanminP m n g then Except.error "DegenerateWindow"
  else Except.ok (patchUint8 m n g)

/-- Follows claim C7: substitute 0 for NaN first, take the normalization
bounds over the zero-substituted patch, normalize with those bounds, then
quantize. -/
def patchUint8ClaimC7 (m n : Nat) (g : Nat → Nat → Option ℚ) : Nat → Nat → ℕ :=
  fun i j =>
    imgAsUbyte (((g i j).getD 0
        - listMinD (patchVals m n fun a b => some ((g a b).getD 0)))
      / (listMaxD (patchVals m n fun a b => some ((g a b).getD 0))
        - listMinD (patchVals m n fun a b => some ((g a b).getD 0))))

/-- Follows the amended claim C7: the bounds are the NaN-ignoring minimum and
maximum of the original patch; valid pixels are normalized with those bounds
while NaN pixels stay NaN; NaN is substituted with 0 after normalization, and
each pixel is then quantized to an 8-bit level. -/
def patchUint8AmendedC7 (m n : Nat) (g : Nat → Nat → Option ℚ) : Nat → Nat → ℕ :=
  fun i j =>
    match (match g i j with
      | none => none
      | some v => some ((v - nanminP m n g) / (nanmaxP m n g - nanminP m n g))) with
    | none => imgAsUbyte 0
    | some v => imgAsUbyte v

/-- Concrete texture patch with one NaN pixel, used to separate claim C7 from
the code: one row holding 1, 3, NaN. -/
def c7grid : Nat → Nat → Option ℚ :=
  fun _ j => if j = 0 then some 1 else if j = 1 then some 3 else none

theorem rint_intCast (z : ℤ) : rint (z : ℚ) = z := by
  unfold rint
  rw [Int.floor_intCast, sub_self]
  norm_num

theorem imgAsUbyte_eval (x : ℚ) (z : ℤ) (h : x * 255 = (z : ℚ)) :
    imgAsUbyte x = z.toNat := by
  unfold imgAsUbyte
  rw [h, rint_intCast]

theorem imgAsUbyte_zero : imgAsUbyte 0 = 0 := by
  rw [imgAsUbyte_eval 0 0 (by norm_num)]
  rfl

/-- C7 counterexample: on the patch (1, 3, NaN), the procedure described by
the claim (substitute 0 before taking the normalization bounds) quantizes the
first pixel to 85, while the code (NaN-ignoring bounds of the original patch,
substitution after normalization) quantizes it to 0. -/
theorem patchUint8_claim_order_cex :
    patchUint8ClaimC7 1 3 c7grid 0 0 ≠ patchUint8 1 3 c7grid 0 0 := by
  have hmin : nanminP 1 3 c7grid = 1 := rfl
  have hmax : nanmaxP 1 3 c7grid = 3 := rfl
  have hminz : listMinD (patchVals 1 3 fun a b => some ((c7grid a b).getD 0)) = 0 := rfl
  have hmaxz : listMaxD (patchVals 1 3 fun a b => some ((c7grid a b).getD 0)) = 3 := rfl
  have hcode : patchUint8 1 3 c7grid 0 0
      = imgAsUbyte ((1 - nanminP 1 3 c7grid)
          / (nanmaxP 1 3 c7grid - nanminP 1 3 c7grid)) := rfl
  have hclaim : patchUint8ClaimC7 1 3 c7grid 0 0
      = imgAsUbyte ((1 - listMinD (patchVals 1 3 fun a b => some ((c7grid a b).getD 0)))
          / (listMaxD (patchVals 1 3 fun a b => some ((c7grid a b).getD 0))
            - listMinD (patchVals 1 3 fun a b => some ((c7grid a b).getD 0)))) := rfl
  rw [hcode, hclaim, hmin, hmax, hminz, hmaxz]
  have h1 : ((1 : ℚ) - 1) / (3 - 1) = 0 := by norm_num
  have h2 : ((1 : ℚ) - 0) / (3 - 0) = 1 / 3 := by norm_num
  rw [h1, h2, imgAsUbyte_zero, imgAsUbyte_eval (1 / 3) 85 (by norm_num)]
  decide

/-- C7 amended: in the texture step the normalization bounds are the
NaN-ignoring minimum and maximum of the original sub-window, NaN positions
stay NaN through the normalization, NaN is substituted with 0 only after the
normalization, and the result is quantized to 8-bit integer levels. -/
theorem patchUint8_amended_eq_code (m n : Nat) (g : Nat → Nat → Option ℚ)
    (i j : Nat) : patchUint8AmendedC7 m n g i j = patchUint8 m n g i j := by
  cases h : g i j with
  | none => simp [patchUint8AmendedC7, patchUint8, normPatch, h]
  | some v => simp [patchUint8AmendedC7, patchUint8, normPatch, h]

/-- C6 counterexample: on a constant 2x2 patch (zero dynamic range) the step
described by the claim fails with DegenerateWindow, while the code does not
fail: it computes the quantized patch (identically zero) and continues. -/
theorem texture_degenerate_cex :
    textureStepClaimC6 2 2 (fun _ _ => some 2)
        ≠ Except.ok (patchUint8 2 2 (fun _ _ => some 2)) ∧
      patchUint8 2 2 (fun _ _ => some 2) 0 0 = 0 := by
  constructor
  · intro h
    rw [show textureStepClaimC6 2 2 (fun _ _ => some 2)
        = Except.error "DegenerateWindow" from rfl] at h
    exact Except.noConfusion h
  · have hred : patchUint8 2 2 (fun _ _ => some 2) 0 0
        = imgAsUbyte ((2 - nanminP 2 2 fun _ _ => some 2)
            / (nanmaxP 2 2 (fun _ _ => some 2) - nanminP 2 2 fun _ _ => some 2)) := rfl
    have hmin : nanminP 2 2 (fun _ _ => some (2 : ℚ)) = 2 := rfl
    have hmax : nanmaxP 2 2 (fun _ _ => some (2 : ℚ)) = 2 := rfl
    rw [hred, hmin, hmax]
    have h1 : ((2 : ℚ) - 2) / (2 - 2) = 0 := by norm_num
    rw [h1, imgAsUbyte_zero]

/-- C6 amended: when the texture sub-window has zero dynamic range (its
NaN-ignoring maximum equals its minimum), the texture step does not fail: the
normalization divides by the zero range, which yields 0 under the exact
0-division convention (numpy produces NaN there, which the subsequent
substitution also turns into 0), so every pixel of the quantized patch is 0. -/
theorem texture_degenerate_no_failure (m n : Nat) (g : Nat → Nat → Option ℚ)
    (h : nanmaxP m n g = nanminP m n g) (i j : Nat) :
    patchUint8 m n g i j = 0 := by
  have h0 : imgAsUbyte 0 = 0 := imgAsUbyte_zero
  cases hg : g i j with
  | none => simp [patchUint8, normPatch, hg, h0]
  | some v =>
    have hz : nanmaxP m n g - nanminP m n g = 0 := by rw [h, sub_self]
    simp [patchUint8, normPatch, hg, hz, div_zero, h0]

theorem texture_degenerate_no_failure_witness :
    patchUint8 2 2 (fun _ _ => some 2) 0 1 = 0 :=
  texture_degenerate_no_failure 2 2 (fun _ _ => some 2) rfl 0 1

/-- The stabilizing constant of the NDVI denominator, `1e-10`. -/
def ndviEps : ℚ := 1 / 10000000000

/-- The vegetation index of one pixel,
`ndvi = (nir - red) / (nir + red + 1e-10)`. -/
def ndvi (red nir : ℚ) : ℚ :=
  (nir - red) / (nir + red + ndviEps)

/-- The NDVI raster computed pointwise from the red and NIR reflectance
windows. -/
def ndviGrid (red nir : Nat → Nat → ℚ) : Nat → Nat → ℚ :=
  fun i j => ndvi (red i j) (nir i j)

/-- The scene classification codes excluded by the cloud mask:
3 cloud shadow, 8 medium cloud, 9 high cloud, 10 thin cirrus, 11 snow/ice. -/
def excludedCodes : List ℕ := [3, 8, 9, 10, 11]

/-- `cloud_mask = np.isin(scl_resampled, [3, 8, 9, 10, 11])`. -/
def cloudMask (scl : Nat → Nat → ℕ) : Nat → Nat → Bool :=
  fun i j => decide (scl i j ∈ excludedCodes)

/-- `ndvi_masked = np.where(cloud_mask, np.nan, ndvi)`. -/
def ndviMasked (nd : Nat → Nat → ℚ) (scl : Nat → Nat → ℕ) :
    Nat → Nat → Option ℚ :=
  fun i j => if cloudMask scl i j then none else some (nd i j)

/-- The two index rasters kept by the optical pipeline: the unmasked NDVI and
the cloud-masked NDVI. -/
def opticalOutputs (nd : Nat → Nat → ℚ) (scl : Nat → Nat → ℕ) :
    (Nat → Nat → ℚ) × (Nat → Nat → Option ℚ) :=
  (nd, ndviMasked nd scl)

/-- C8: for non-negative red and NIR reflectances, every NDVI pixel lies in
[-1, 1]; pointwise, equal positive bands give index exactly 0, a zero red
band with positive NIR gives an index within eps/nir of 1, and a zero NIR
band with positive red gives an index within eps/red of -1. -/
theorem ndvi_bounds_and_special_values (red nir : Nat → Nat → ℚ) (i j : Nat)
    (hr : 0 ≤ red i j) (hn : 0 ≤ nir i j) :
    -1 ≤ ndviGrid red nir i j ∧ ndviGrid red nir i j ≤ 1 ∧
    (red i j = nir i j → 0 < red i j → ndviGrid red nir i j = 0) ∧
    (red i j = 0 → 0 < nir i j →
      |ndviGrid red nir i j - 1| < ndviEps / nir i j) ∧
    (nir i j = 0 → 0 < red i j →
      |ndviGrid red nir i j + 1| < ndviEps / red i j) := by
  have heps : (0 : ℚ) < ndviEps := by norm_num [ndviEps]
  have hd : 0 < nir i j + red i j + ndviEps := by linarith
  have hgrid : ndviGrid red nir i j
      = (nir i j - red i j) / (nir i j + red i j + ndviEps) := rfl
  refine ⟨?_, ?_, ?_, ?_, ?_⟩
  · rw [hgrid, le_div_iff₀ hd]
    linarith
  · rw [hgrid, div_le_one hd]
    linarith
  · intro hrn _
    rw [hgrid, ← hrn, sub_self, zero_div]
  · intro hr0 hnpos
    have hd2 : 0 < nir i j + ndviEps := by linarith
    have hge : ndviGrid red nir i j = nir i j / (nir i j + ndviEps) := by
      unfold ndviGrid ndvi
      rw [hr0, sub_zero, add_zero]
    have h1 : nir i j / (nir i j + ndviEps) - 1 = -(ndviEps / (nir i j + ndviEps)) := by
      rw [div_sub_one (ne_of_gt hd2),
        show nir i j - (nir i j + ndviEps) = -ndviEps by ring, neg_div]
    rw [hge, h1, abs_neg, abs_of_pos (div_pos heps hd2)]
    exact div_lt_div_of_pos_left heps hnpos (by linarith)
  · intro hn0 hrpos
    have hd2 : 0 < red i j + ndviEps := by linarith
    have hge : ndviGrid red nir i j = -(red i j) / (red i j + ndviEps) := by
      unfold ndviGrid ndvi
      rw [hn0, zero_sub, zero_add]
    have h1 : -(red i j) / (red i j + ndviEps) + 1 = ndviEps / (red i j + ndviEps) := by
      rw [div_add_one (ne_of_gt hd2),
        show -(red i j) + (red i j + ndviEps) = ndviEps by ring]
    rw [hge, h1, abs_of_pos (div_pos heps hd2)]
    exact div_lt_div_of_pos_left heps hrpos (by linarith)

theorem ndvi_bounds_and_special_values_witness :
    |ndviGrid (fun _ _ => 0) (fun _ _ => 1) 0 0 - 1| < ndviEps / 1 :=
  (ndvi_bounds_and_special_values (fun _ _ => 0) (fun _ _ => 1) 0 0
      (by norm_num) (by norm_num)).2.2.2.1 rfl (by norm_num)

/-- C9: the cloud-masked index raster is NaN at exactly the positions whose
resampled classification code is excluded, and equals the unmasked index
raster pixel-for-pixel everywhere else; an entirely excluded classification
raster gives an entirely NaN masked output, an entirely non-excluded one
reproduces the index raster exactly, and the unmasked index raster is kept
unchanged as the first output. -/
theorem cloud_mask_exact (nd : Nat → Nat → ℚ) (scl : Nat → Nat → ℕ) :
    (∀ i j, ndviMasked nd scl i j = none ↔ scl i j ∈ excludedCodes) ∧
    (∀ i j, scl i j ∉ excludedCodes → ndviMasked nd scl i j = some (nd i j)) ∧
    ((∀ i j, scl i j ∈ excludedCodes) → ∀ i j, ndviMasked nd scl i j = none) ∧
    ((∀ i j, scl i j ∉ excludedCodes) →
      ∀ i j, ndviMasked nd scl i j = some (nd i j)) ∧
    (opticalOutputs nd scl).1 = nd := by
  have hpoint : ∀ i j, (ndviMasked nd scl i j = none ↔ scl i j ∈ excludedCodes) := by
    intro i j
    by_cases h : scl i j ∈ excludedCodes
    · simp [ndviMasked, cloudMask, h]
    · simp [ndviMasked, cloudMask, h]
  have hkeep : ∀ i j, scl i j ∉ excludedCodes →
      ndviMasked nd scl i j = some (nd i j) := by
    intro i j h
    simp [ndviMasked, cloudMask, h]
  exact ⟨hpoint, hkeep, fun hall i j => (hpoint i j).mpr (hall i j),
    fun hall i j => hkeep i j (hall i j), rfl⟩

theorem cloud_mask_exact_witness :
    ndviMasked (fun _ _ => 0) (fun _ _ => 3) 0 0 = none :=
  ((cloud_mask_exact (fun _ _ => 0) (fun _ _ => 3)).1 0 0).mpr (by decide)

end SatPipeline
